import Mathlib

/-!
# Verification of the `wt` environment-templating and port-offset engine

Shallow embedding of the core of the `wt` git-worktree manager:

* `src/environment-updater.ts` (`EnvironmentUpdater`): the file-update engine
  (`env_vars` / `replace` / `append` strategies), the port-offset calculator,
  the template-substitution engine and the per-worktree orchestration.
* `src/config-loader.ts` (`ConfigLoader.parseConfig` / `parseArray`): the
  `.wt.conf` parser.

Modelling conventions:

* JavaScript numbers that can be `NaN` (base ports produced by `parseInt`)
  are modelled by `JsNum`; genuine integers (indices, increments, offsets)
  by `Int`.
* A text file's byte content `s` is represented by its list of lines
  `s.split("\n")`; this is a bijection between strings and nonempty lists of
  newline-free strings, so byte-identical files correspond exactly to equal
  line lists.  The line-anchored multiline regex `^VAR=.*$` used by the
  source matches precisely the lines that start with `VAR=` (for regular
  variable names containing no regex metacharacters), and a JavaScript
  global replace rewrites every such line.
* The file system is an insertion-ordered association list from absolute
  paths to file contents; `none` (absent key) models a missing file.
* Fallible code (the uncaught `TypeError` raised when a malformed `replace`
  rule reaches `undefined.replace`) is modelled with `Except JsError`.
* String primitives (`split`, `trim`, `toLowerCase`, literal global
  `replace`, `parseInt`) are implemented here on `List Char`, following the
  JavaScript semantics the source relies on; regex replacement is modelled
  for the literal (metacharacter-free) patterns exercised by the claims.
-/

/-- JavaScript whitespace recognised by `String.prototype.trim` (ASCII part,
which is all the source's inputs use). -/
def isJsWS (c : Char) : Bool :=
  c = ' ' || c = '\t' || c = '\n' || c = '\r'

/-- `String.prototype.trim` on the character list. -/
def trimL (s : List Char) : List Char :=
  ((s.dropWhile isJsWS).reverse.dropWhile isJsWS).reverse

/-- `String.prototype.trim`. -/
def jsTrim (s : String) : String :=
  ⟨trimL s.data⟩

/-- `pat` is a prefix of `s` (Boolean, fully executable). -/
def isPrefixL (pat s : List Char) : Bool :=
  match pat, s with
  | [], _ => true
  | _ :: _, [] => false
  | a :: as, b :: bs => a = b && isPrefixL as bs

/-- `pat` occurs as a contiguous substring of `s`. -/
def occursIn (pat : List Char) : List Char → Bool
  | [] => isPrefixL pat []
  | c :: rest => isPrefixL pat (c :: rest) || occursIn pat rest

/-- `String.prototype.startsWith`. -/
def jsStartsWith (s pat : String) : Bool :=
  isPrefixL pat.data s.data

/-- Worker for `String.prototype.split` with a literal separator: JavaScript
splits on each leftmost non-overlapping occurrence.  `fuel` bounds recursion
(one character is consumed per step, so `s.length` suffices). -/
def splitAuxL (sep : List Char) : Nat → List Char → List Char → List (List Char)
  | 0, acc, s => [acc.reverse ++ s]
  | fuel + 1, acc, s =>
    match s with
    | [] => [acc.reverse]
    | c :: rest =>
      if sep ≠ [] ∧ isPrefixL sep s then
        acc.reverse :: splitAuxL sep fuel [] (s.drop sep.length)
      else
        splitAuxL sep fuel (c :: acc) rest

/-- `String.prototype.split` with a literal (nonempty) separator. -/
def jsSplit (s sep : String) : List String :=
  (splitAuxL sep.data s.data.length [] s.data).map String.mk

/-- Worker for the literal global replace: rewrite each leftmost
non-overlapping occurrence of `pat` by `rep`, continuing after the
replacement (JavaScript `String.prototype.replace` with a `g` regex whose
pattern is a literal).  `fuel` bounds recursion. -/
def replaceAllAux (pat rep : List Char) : Nat → List Char → List Char
  | 0, s => s
  | fuel + 1, s =>
    match s with
    | [] => []
    | c :: rest =>
      if pat ≠ [] ∧ isPrefixL pat s then
        rep ++ replaceAllAux pat rep fuel (s.drop pat.length)
      else
        c :: replaceAllAux pat rep fuel rest

/-- Literal global replace on character lists. -/
def replaceAllL (pat rep s : List Char) : List Char :=
  replaceAllAux pat rep s.length s

/-- JavaScript `content.replace(new RegExp(pattern, 'g'), rep)` for a literal
pattern.  An empty pattern (the regex built from `undefined`) matches the
empty string at every position, so the replacement is inserted around every
character. -/
def jsReplaceAll (pat rep s : String) : String :=
  if pat.data = [] then
    ⟨rep.data ++ s.data.foldr (fun c acc => c :: (rep.data ++ acc)) []⟩
  else
    ⟨replaceAllL pat.data rep.data s.data⟩

/-- Decimal digit character. -/
def digitChar (n : Nat) : Char :=
  Char.ofNat (48 + n)

/-- Decimal digits of a natural number (`fuel ≥ 1 + n` suffices). -/
def natDigitsAux : Nat → Nat → List Char
  | 0, _ => []
  | fuel + 1, n => if n < 10 then [digitChar n] else natDigitsAux fuel (n / 10) ++ [digitChar (n % 10)]

/-- Decimal string of a natural number. -/
def natToStr (n : Nat) : String :=
  ⟨natDigitsAux (n + 1) n⟩

/-- Decimal string of an integer (JavaScript `Number.prototype.toString` for
integral values). -/
def intToStr (i : Int) : String :=
  match i with
  | .ofNat n => natToStr n
  | .negSucc n => "-" ++ natToStr (n + 1)

/-- A JavaScript number that is either an integer or `NaN` (the value
`parseInt` yields on unparseable input). -/
inductive JsNum where
  | num (n : Int)
  | nan
deriving DecidableEq, Repr

/-- Addition of a genuine integer to a possibly-`NaN` number: `NaN + x` is
`NaN`. -/
def JsNum.add (b : JsNum) (o : Int) : JsNum :=
  match b with
  | .num n => .num (n + o)
  | .nan => .nan

/-- JavaScript string conversion: `NaN` prints as `"NaN"`. -/
def JsNum.toStr (b : JsNum) : String :=
  match b with
  | .num n => intToStr n
  | .nan => "NaN"

/-- JavaScript truthiness of a number: `0` and `NaN` are falsy. -/
def JsNum.truthy (b : JsNum) : Bool :=
  match b with
  | .num n => n ≠ 0
  | .nan => false

/-- Leading decimal digits of a character list. -/
def digitsOf (s : List Char) : List Char :=
  s.takeWhile fun c => '0' ≤ c ∧ c ≤ '9'

/-- Numeric value of a digit list. -/
def digitsVal (ds : List Char) : Nat :=
  ds.foldl (fun n c => n * 10 + (c.toNat - 48)) 0

/-- JavaScript `parseInt(s, 10)`: skip leading whitespace, read an optional
sign and then the longest digit prefix; `NaN` when there is no digit. -/
def jsParseInt (s : String) : JsNum :=
  let cs := s.data.dropWhile isJsWS
  match cs with
  | '-' :: rest =>
    if digitsOf rest = [] then .nan else .num (-(digitsVal (digitsOf rest) : Int))
  | '+' :: rest =>
    if digitsOf rest = [] then .nan else .num (digitsVal (digitsOf rest) : Int)
  | _ =>
    if digitsOf cs = [] then .nan else .num (digitsVal (digitsOf cs) : Int)

/-- ASCII lowering, as applied by `toLowerCase` to the keyword values the
parser compares against. -/
def jsToLower (s : String) : String :=
  ⟨s.data.map fun c => if 'A' ≤ c ∧ c ≤ 'Z' then Char.ofNat (c.toNat + 32) else c⟩

/-- First-match lookup in an insertion-ordered association list (JavaScript
object property read; keys are unique in lists built by the parser). -/
def lookupA {α : Type} : List (String × α) → String → Option α
  | [], _ => none
  | e :: rest, k => if e.1 = k then some e.2 else lookupA rest k

/-- JavaScript object property write: an existing key keeps its insertion
position and gets the new value, a new key is appended. -/
def insertA {α : Type} (l : List (String × α)) (k : String) (v : α) : List (String × α) :=
  if l.any (fun p => p.1 = k) then
    l.map fun p => if p.1 = k then (k, v) else p
  else
    l ++ [(k, v)]

/-! ## File system model -/

/-- A file's content as its list of lines (`content.split("\n")`). -/
abbrev FileContent := List String

/-- The file system: insertion-ordered association list from paths to
contents; an absent path is a missing file. -/
abbrev FS := List (String × FileContent)

/-- `fs.pathExists` / `fs.readFile` combined: `none` when the file is
missing. -/
def lookupFS (fs : FS) (p : String) : Option FileContent :=
  lookupA fs p

/-- `fs.writeFile` (create-if-absent): replace the first entry for `p`, or
append a new one. -/
def setFS (fs : FS) (p : String) (c : FileContent) : FS :=
  match fs with
  | [] => [(p, c)]
  | e :: rest => if e.1 = p then (p, c) :: rest else e :: setFS rest p c

/-- Content read by the `ensureFile`-then-`readFile` sequence: the existing
content, or the empty file (one empty line) just created. -/
def readOrEmpty (fs : FS) (p : String) : FileContent :=
  (lookupFS fs p).getD [""]

/-- `path.join(worktreeDir, filePath)`. -/
def joinPath (dir fp : String) : String :=
  dir ++ "/" ++ fp

/-! ## Configuration model (`src/config-loader.ts`) -/

/-- `FileUpdate.updateType`: the source casts the raw string, so an
unrecognised tag survives parsing and falls through the dispatch switch. -/
inductive UpdateType where
  | envVars
  | replace
  | append
  | other (raw : String)
deriving DecidableEq, Repr

/-- `FileUpdate` (one `FILE_UPDATES` rule). -/
structure FileUpdate where
  filePath : String
  updateType : UpdateType
  spec : String
  searchPattern : Option String
  replacement : Option String
deriving DecidableEq, Repr

/-- `Config` (the root configuration object). -/
structure Config where
  startContainers : Bool
  portOffsetIncrement : Int
  envFiles : List String
  portMappings : List (String × JsNum)
  containerNames : List (String × String)
  fileUpdates : List FileUpdate
deriving DecidableEq, Repr

/-- `ConfigLoader.loadDefaultConfig`. -/
def defaultConfig : Config where
  startContainers := true
  portOffsetIncrement := 10
  envFiles := []
  portMappings := []
  containerNames := []
  fileUpdates := []

/-! ## Environment updater (`src/environment-updater.ts`) -/

/-- A JavaScript error aborting the batch (the only one the embedded code
can raise is the `TypeError` from calling `.replace` on `undefined`). -/
inductive JsError where
  | typeError (msg : String)
deriving DecidableEq, Repr

/-- `EnvironmentUpdater.calculatePortOffset`: the worktree index (resolved by
the external git collaborator) times the configured increment. -/
def calculatePortOffset (cfg : Config) (index : Int) : Int :=
  index * cfg.portOffsetIncrement

/-- One step of `EnvironmentUpdater.substituteTemplate`'s port loop. -/
def portSubstStep (off : Int) (acc : String) (kv : String × JsNum) : String :=
  jsReplaceAll ("\x7b\x7b" ++ kv.1 ++ "\x7d\x7d") (JsNum.toStr (kv.2.add off)) acc

/-- `EnvironmentUpdater.substituteTemplate`: replace every
`{{WORKTREE_NAME}}`, then every `{{WORKTREE_INDEX}}`, then, for each
configured port mapping in order, every `{{VAR}}` by the offset port. -/
def substituteTemplate (mappings : List (String × JsNum)) (template name : String)
    (index off : Int) : String :=
  let r1 := jsReplaceAll "{{WORKTREE_NAME}}" name template
  let r2 := jsReplaceAll "{{WORKTREE_INDEX}}" (intToStr index) r1
  mappings.foldl (portSubstStep off) r2

/-- The line-anchored multiline regex `^v=.*$` matches a line iff the line
starts with `v=`. -/
def lineMatches (v : String) (l : String) : Bool :=
  isPrefixL (v.data ++ ['=']) l.data

/-- The upsert block shared by the three updaters: with the `gm` regex
`^v=.*$`, `regex.test(content)` then a global replace rewrites every
matching line to `v=value`; otherwise `\nv=value` is appended. -/
def upsertLine (v value : String) (c : FileContent) : FileContent :=
  let newLine := v ++ "=" ++ value
  if c.any (lineMatches v) then
    c.map fun l => if lineMatches v l then newLine else l
  else
    c ++ [newLine]

/-- The body of `updateEnvVars`'s loop for one listed variable: skipped
unless the port-mapping lookup yields a truthy base port. -/
def envVarsStep (mappings : List (String × JsNum)) (off : Int)
    (c : FileContent) (varName : String) : FileContent :=
  match lookupA mappings varName with
  | none => c
  | some basePort =>
    if basePort.truthy then
      upsertLine varName (JsNum.toStr (basePort.add off)) c
    else
      c

/-- Content transformation of `EnvironmentUpdater.updateEnvVars`: split the
spec on commas, trim each name, and fold the per-variable upserts. -/
def updateEnvVarsContent (mappings : List (String × JsNum)) (varSpec : String)
    (off : Int) (c : FileContent) : FileContent :=
  let vars := (jsSplit varSpec ",").map jsTrim
  vars.foldl (envVarsStep mappings off) c

/-- `EnvironmentUpdater.updateEnvVars`: ensure the file exists (creating it
empty), read it, apply the per-variable upserts, write it back. -/
def updateEnvVars (mappings : List (String × JsNum)) (filePath varSpec : String)
    (off : Int) (fs : FS) : FS :=
  setFS fs filePath (updateEnvVarsContent mappings varSpec off (readOrEmpty fs filePath))

/-- `EnvironmentUpdater.replaceInFile`: a missing target file returns
unchanged; otherwise the replacement template is rendered first (raising the
JavaScript `TypeError` when the rule has no `replacement`), then the pattern
(the empty pattern when the rule has no `searchPattern`, since
`new RegExp(undefined)` compiles the empty regex) is replaced globally. -/
def replaceInFile (cfg : Config) (filePath : String)
    (searchPattern replacement : Option String) (name : String) (index : Int)
    (fs : FS) : Except JsError FS :=
  match lookupFS fs filePath with
  | none => .ok fs
  | some content =>
    let portOffset := calculatePortOffset cfg index
    match replacement with
    | none => .error (.typeError "Cannot read properties of undefined (reading 'replace')")
    | some repl =>
      let substituted := substituteTemplate cfg.portMappings repl name index portOffset
      let pat := searchPattern.getD ""
      .ok (setFS fs filePath (content.map (jsReplaceAll pat substituted)))

/-- `fs.appendFile(path, "\n" + payload)`: appending `\n` followed by the
payload splits off the payload's lines after the existing ones; a missing
file is created holding exactly the appended text. -/
def appendFS (fs : FS) (p : String) (payload : String) : FS :=
  let payloadLines := jsSplit payload "\n"
  match lookupFS fs p with
  | none => setFS fs p ("" :: payloadLines)
  | some c => setFS fs p (c ++ payloadLines)

/-- `EnvironmentUpdater.processFileUpdate`: dispatch one rule to its
strategy.  An unrecognised update type falls through the switch. -/
def processFileUpdate (cfg : Config) (u : FileUpdate) (name dir : String)
    (index off : Int) (fs : FS) : Except JsError FS :=
  let fullPath := joinPath dir u.filePath
  match u.updateType with
  | .envVars => .ok (updateEnvVars cfg.portMappings fullPath u.spec off fs)
  | .replace => replaceInFile cfg fullPath u.searchPattern u.replacement name index fs
  | .append =>
    .ok (appendFS fs fullPath (substituteTemplate cfg.portMappings u.spec name index off))
  | .other _ => .ok fs

/-- The `FILE_UPDATES` loop of `updateEnvironmentFiles`: rules run in
declaration order; an uncaught error aborts the remainder of the batch. -/
def applyFileUpdates (cfg : Config) (rules : List FileUpdate) (name dir : String)
    (index off : Int) (fs : FS) : Except JsError FS :=
  match rules with
  | [] => .ok fs
  | u :: rest =>
    match processFileUpdate cfg u name dir index off fs with
    | .error e => .error e
    | .ok fs' => applyFileUpdates cfg rest name dir index off fs'

/-- Content transformation of `updatePortVariables`: upsert every configured
port mapping (no truthiness check — `NaN` base ports are upserted as
`VAR=NaN`). -/
def updatePortVariablesContent (mappings : List (String × JsNum)) (off : Int)
    (c : FileContent) : FileContent :=
  mappings.foldl (fun c kv => upsertLine kv.1 (JsNum.toStr (kv.2.add off)) c) c

/-- `EnvironmentUpdater.updatePortVariables`: upsert all port mappings into
the worktree's primary `.env` file (created if absent). -/
def updatePortVariables (cfg : Config) (dir : String) (off : Int) (fs : FS) : FS :=
  let envPath := joinPath dir ".env"
  setFS fs envPath (updatePortVariablesContent cfg.portMappings off (readOrEmpty fs envPath))

/-- Content transformation of `updateContainerNames`: upsert every container
name, rendered through the template engine with a port offset of `0`. -/
def updateContainerNamesContent (cfg : Config) (name : String) (index : Int)
    (c : FileContent) : FileContent :=
  cfg.containerNames.foldl
    (fun c kv => upsertLine kv.1 (substituteTemplate cfg.portMappings kv.2 name index 0) c) c

/-- `EnvironmentUpdater.updateContainerNames`: upsert all container-name
templates into the primary `.env` file (created if absent). -/
def updateContainerNames (cfg : Config) (dir name : String) (index : Int) (fs : FS) : FS :=
  let envPath := joinPath dir ".env"
  setFS fs envPath (updateContainerNamesContent cfg name index (readOrEmpty fs envPath))

/-- `EnvironmentUpdater.updateEnvironmentFiles` (steps 3–5 of the
orchestration, with the worktree index already resolved by the external git
collaborator): run every file-update rule in order, then the port-mapping
upserts (when any are configured), then the container-name upserts (when any
are configured). -/
def updateEnvironmentFiles (cfg : Config) (name dir : String) (index : Int)
    (fs : FS) : Except JsError FS :=
  let off := calculatePortOffset cfg index
  (applyFileUpdates cfg cfg.fileUpdates name dir index off fs).map fun fs1 =>
    let fs2 := if cfg.portMappings.isEmpty then fs1 else updatePortVariables cfg dir off fs1
    if cfg.containerNames.isEmpty then fs2 else updateContainerNames cfg dir name index fs2

/-! ## Configuration parsing (`ConfigLoader.parseConfig` / `parseArray`) -/

/-- The body captured by `parseArray`'s regex `NAME=\(([^)]+)\)` (with the
`s` flag): at the leftmost position where the literal `NAME=(` is followed by
at least one non-`)` character and then a `)`, the characters between the
parentheses. -/
def findArrayBody (pat : List Char) : List Char → Option (List Char)
  | [] => none
  | c :: rest =>
    if isPrefixL pat (c :: rest) then
      let after := (c :: rest).drop pat.length
      let body := after.takeWhile (· ≠ ')')
      if body ≠ [] ∧ body.length < after.length then some body
      else findArrayBody pat rest
    else findArrayBody pat rest

/-- `trimmed.replace(/^["']|["']$/g, '')`: strip one leading and one
trailing quote (single or double), independently. -/
def stripQuotes (s : String) : String :=
  let cs :=
    match s.data with
    | c :: rest => if c = '"' ∨ c = '\'' then rest else s.data
    | [] => []
  let cs2 :=
    match cs.getLast? with
    | some c => if c = '"' ∨ c = '\'' then cs.dropLast else cs
    | none => cs
  ⟨cs2⟩

/-- `ConfigLoader.parseArray`: extract the block body, split it into lines,
drop blank and `#` lines, and strip surrounding quotes from each item. -/
def parseArrayItems (content : String) (varName : String) : List String :=
  match findArrayBody (varName ++ "=(").data content.data with
  | none => []
  | some body =>
    (jsSplit ⟨body⟩ "\n").filterMap fun line =>
      let t := jsTrim line
      if t = "" ∨ jsStartsWith t "#" then none else some (stripQuotes t)

/-- The `PORT_MAPPINGS` loop body: destructure `split(':')` into its first
two fields; insert when the name is truthy and a second field exists — the
value is `parseInt` of that field, `NaN` for invalid numbers. -/
def addPortMapping (m : List (String × JsNum)) (item : String) : List (String × JsNum) :=
  let parts := jsSplit item ":"
  let varName := parts.getD 0 ""
  match parts.get? 1 with
  | none => m
  | some basePort => if varName ≠ "" then insertA m varName (jsParseInt basePort) else m

/-- The `CONTAINER_NAMES` loop body: destructure `split(':')` into its first
two fields (anything after a second `:` is discarded by the destructuring);
insert when both fields are truthy. -/
def addContainerName (m : List (String × String)) (item : String) : List (String × String) :=
  let parts := jsSplit item ":"
  let varName := parts.getD 0 ""
  match parts.get? 1 with
  | none => m
  | some template =>
    if varName ≠ "" ∧ template ≠ "" then insertA m varName template else m

/-- The `FILE_UPDATES` loop body: pipe-split, require at least three fields;
for a `replace` rule with a fourth field, fields three and four become
`searchPattern` and `replacement` and the stored `spec` is the
replacement. -/
def mkFileUpdate (item : String) : Option FileUpdate :=
  let parts := jsSplit item "|"
  if parts.length ≥ 3 then
    let tyRaw := parts.getD 1 ""
    let ty : UpdateType :=
      if tyRaw = "env_vars" then .envVars
      else if tyRaw = "replace" then .replace
      else if tyRaw = "append" then .append
      else .other tyRaw
    if tyRaw = "replace" ∧ parts.length ≥ 4 then
      some ⟨parts.getD 0 "", ty, parts.getD 3 "", some (parts.getD 2 ""), some (parts.getD 3 "")⟩
    else
      some ⟨parts.getD 0 "", ty, parts.getD 2 "", none, none⟩
  else none

/-- One iteration of `parseConfig`'s line loop (the source's independent
`if` blocks have mutually exclusive guards, so they chain).  Block values
are re-extracted from the whole `content` by `parseArray`. -/
def parseLine (content : String) (cfg : Config) (line : String) : Config :=
  let trimmed := jsTrim line
  if trimmed = "" ∨ jsStartsWith trimmed "#" then cfg
  else if jsStartsWith trimmed "START_CONTAINERS=" then
    let value := jsToLower ((jsSplit trimmed "=").getD 1 "")
    if value = "false" ∨ value = "no" ∨ value = "0" then { cfg with startContainers := false }
    else if value = "true" ∨ value = "yes" ∨ value = "1" then { cfg with startContainers := true }
    else cfg
  else if jsStartsWith trimmed "PORT_OFFSET_INCREMENT=" then
    match jsParseInt ((jsSplit trimmed "=").getD 1 "") with
    | .num n => { cfg with portOffsetIncrement := n }
    | .nan => cfg
  else if jsStartsWith trimmed "PORT_MAPPINGS=(" then
    { cfg with portMappings := (parseArrayItems content "PORT_MAPPINGS").foldl addPortMapping cfg.portMappings }
  else if jsStartsWith trimmed "CONTAINER_NAMES=(" then
    { cfg with containerNames := (parseArrayItems content "CONTAINER_NAMES").foldl addContainerName cfg.containerNames }
  else if jsStartsWith trimmed "ENV_FILES=(" then
    { cfg with envFiles := parseArrayItems content "ENV_FILES" }
  else if jsStartsWith trimmed "FILE_UPDATES=(" then
    { cfg with fileUpdates := cfg.fileUpdates ++ (parseArrayItems content "FILE_UPDATES").filterMap mkFileUpdate }
  else cfg

/-- `ConfigLoader.parseConfig`: reset to defaults, then process each line of
the configuration text.  Total: every anomaly resolves to a default or an
item skip. -/
def parseConfig (content : String) : Config :=
  (jsSplit content "\n").foldl (parseLine content) defaultConfig

/-! ## Basic lemmas about the string and file-system primitives -/

theorem isPrefixL_self_append (p q : List Char) : isPrefixL p (p ++ q) = true := by
  induction p with
  | nil => rfl
  | cons a as ih => simp [isPrefixL, ih]

theorem isPrefixL_length_le (p s : List Char) (h : isPrefixL p s = true) :
    p.length ≤ s.length := by
  induction p generalizing s with
  | nil => simp
  | cons a as ih =>
    cases s with
    | nil => simp [isPrefixL] at h
    | cons b bs =>
      simp only [isPrefixL, Bool.and_eq_true] at h
      simpa using ih bs h.2

theorem isPrefixL_eq_of_length (p s : List Char) (h : isPrefixL p s = true)
    (hl : p.length = s.length) : p = s := by
  induction p generalizing s with
  | nil => cases s with
    | nil => rfl
    | cons b bs => simp at hl
  | cons a as ih =>
    cases s with
    | nil => simp [isPrefixL] at h
    | cons b bs =>
      simp only [isPrefixL, Bool.and_eq_true, decide_eq_true_eq] at h
      simp only [List.length_cons, Nat.add_right_cancel_iff] at hl
      rw [h.1, ih bs h.2 hl]

theorem isPrefixL_mem (p s : List Char) (h : isPrefixL p s = true) :
    ∀ x ∈ p, x ∈ s := by
  induction p generalizing s with
  | nil => simp
  | cons a as ih =>
    cases s with
    | nil => simp [isPrefixL] at h
    | cons b bs =>
      simp only [isPrefixL, Bool.and_eq_true, decide_eq_true_eq] at h
      intro x hx
      rcases List.mem_cons.mp hx with hx | hx
      · exact hx ▸ h.1 ▸ List.mem_cons_self _ _
      · exact List.mem_cons_of_mem _ (ih bs h.2 x hx)

theorem isPrefixL_of_both (p q s : List Char) (hp : isPrefixL p s = true)
    (hq : isPrefixL q s = true) (hl : p.length ≤ q.length) :
    isPrefixL p q = true := by
  induction p generalizing q s with
  | nil => rfl
  | cons a as ih =>
    cases s with
    | nil => simp [isPrefixL] at hp
    | cons b bs =>
      cases q with
      | nil => simp at hl
      | cons c cs =>
        simp only [isPrefixL, Bool.and_eq_true, decide_eq_true_eq] at hp hq ⊢
        refine ⟨by rw [hp.1, hq.1], ih cs bs hp.2 hq.2 (by simpa using hl)⟩

theorem string_data_inj {s t : String} (h : s.data = t.data) : s = t := by
  cases s
  cases t
  exact congrArg String.mk h

theorem replaceAllAux_of_not_occurs (pat rep : List Char) (fuel : Nat) (s : List Char)
    (h : occursIn pat s = false) :
    replaceAllAux pat rep fuel s = s := by
  induction fuel generalizing s with
  | zero => rfl
  | succ f ih =>
    cases s with
    | nil => rfl
    | cons c rest =>
      simp only [occursIn, Bool.or_eq_false_iff] at h
      rw [replaceAllAux, if_neg (fun hc => by simp [h.1] at hc)]
      rw [ih rest h.2]

theorem jsReplaceAll_of_not_occurs (pat rep s : String)
    (h : occursIn pat.data s.data = false) : jsReplaceAll pat rep s = s := by
  have hp : pat.data ≠ [] := by
    intro he
    rw [he] at h
    cases hd : s.data <;> rw [hd] at h <;> simp [occursIn, isPrefixL] at h
  rw [jsReplaceAll, if_neg hp]
  exact string_data_inj (by simp [replaceAllL, replaceAllAux_of_not_occurs _ _ _ _ h])

theorem lookupFS_setFS_self (fs : FS) (p : String) (c : FileContent) :
    lookupFS (setFS fs p c) p = some c := by
  induction fs with
  | nil => simp [setFS, lookupFS, lookupA]
  | cons e rest ih =>
    by_cases he : e.1 = p
    · simp [setFS, he, lookupFS, lookupA]
    · simpa [setFS, he, lookupFS, lookupA] using ih

theorem lookupFS_setFS_ne (fs : FS) (p q : String) (c : FileContent) (h : q ≠ p) :
    lookupFS (setFS fs p c) q = lookupFS fs q := by
  have hpq : ¬ p = q := fun hh => h hh.symm
  induction fs with
  | nil => simp [setFS, lookupFS, lookupA, hpq]
  | cons e rest ih =>
    by_cases he : e.1 = p
    · have heq : ¬ e.1 = q := by rw [he]; exact hpq
      simp [setFS, he, lookupFS, lookupA, hpq, heq]
    · by_cases heq : e.1 = q
      · simp only [setFS, if_neg he]
        simp [lookupFS, lookupA, heq]
      · simp only [setFS, if_neg he]
        simpa [lookupFS, lookupA, heq] using ih

theorem setFS_setFS (fs : FS) (p : String) (c d : FileContent) :
    setFS (setFS fs p c) p d = setFS fs p d := by
  induction fs with
  | nil => simp [setFS]
  | cons e rest ih =>
    by_cases he : e.1 = p
    · simp [setFS, he]
    · simp [setFS, he, ih]

theorem setFS_of_lookup_eq (fs : FS) (p : String) (c : FileContent)
    (h : lookupFS fs p = some c) : setFS fs p c = fs := by
  induction fs with
  | nil => simp [lookupFS, lookupA] at h
  | cons e rest ih =>
    by_cases he : e.1 = p
    · simp only [lookupFS, lookupA, if_pos he, Option.some.injEq] at h
      cases e
      simp_all [setFS]
    · have h' : lookupFS rest p = some c := by
        simpa [lookupFS, lookupA, he] using h
      simp [setFS, he, ih h']

theorem lookupA_mem {α : Type} (m : List (String × α)) (k : String) (v : α)
    (h : lookupA m k = some v) : (k, v) ∈ m := by
  induction m with
  | nil => simp [lookupA] at h
  | cons e rest ih =>
    by_cases he : e.1 = k
    · simp only [lookupA, if_pos he, Option.some.injEq] at h
      cases e
      simp_all
    · have h' : lookupA rest k = some v := by simpa [lookupA, he] using h
      exact List.mem_cons_of_mem _ (ih h')

theorem lookupA_eq_none {α : Type} (m : List (String × α)) (k : String)
    (h : k ∉ m.map Prod.fst) : lookupA m k = none := by
  induction m with
  | nil => rfl
  | cons e rest ih =>
    simp only [List.map_cons, List.mem_cons, not_or] at h
    have : ¬ e.1 = k := fun hh => h.1 hh.symm
    simpa [lookupA, this] using ih h.2

theorem lookupA_of_nodup_mem {α : Type} (m : List (String × α)) (k : String) (v : α)
    (hnd : (m.map Prod.fst).Nodup) (h : (k, v) ∈ m) : lookupA m k = some v := by
  induction m with
  | nil => simp at h
  | cons e rest ih =>
    simp only [List.map_cons, List.nodup_cons] at hnd
    rcases List.mem_cons.mp h with h | h
    · simp [lookupA, ← h]
    · have hne : ¬ e.1 = k := by
        intro hh
        exact hnd.1 (hh ▸ (List.mem_map.mpr ⟨(k, v), h, rfl⟩))
      simpa [lookupA, hne] using ih hnd.2 h

theorem data_append (s t : String) : (s ++ t).data = s.data ++ t.data := rfl

theorem insertA_cons_ne {α : Type} (e : String × α) (rest : List (String × α))
    (k : String) (v : α) (he : ¬ e.1 = k) :
    insertA (e :: rest) k v = e :: insertA rest k v := by
  by_cases ha : rest.any (fun p => p.1 = k)
  · simp [insertA, List.any_cons, he, ha]
  · simp [insertA, List.any_cons, he, ha]

theorem lookupA_insertA_self {α : Type} (m : List (String × α)) (k : String) (v : α) :
    lookupA (insertA m k v) k = some v := by
  induction m with
  | nil => simp [insertA, lookupA]
  | cons e rest ih =>
    by_cases he : e.1 = k
    · simp [insertA, List.any_cons, he, lookupA]
    · rw [insertA_cons_ne e rest k v he]
      simpa [lookupA, he] using ih

theorem lineMatches_newLine (v val : String) : lineMatches v (v ++ "=" ++ val) = true := by
  have hd : (v ++ "=" ++ val).data = (v.data ++ ['=']) ++ val.data := by
    simp [data_append]
  rw [lineMatches, hd]
  exact isPrefixL_self_append _ _

theorem prefix_sandwich (a b : List Char) (x : Char)
    (h : isPrefixL (a ++ [x]) (b ++ [x]) = true) : a = b ∨ x ∈ b := by
  by_cases hlen : a.length = b.length
  · left
    have he := isPrefixL_eq_of_length _ _ h (by simp [hlen])
    simpa using he
  · right
    have hle : a.length + 1 ≤ b.length + 1 := by
      simpa using isPrefixL_length_le _ _ h
    have hpb : isPrefixL (a ++ [x]) b = true := by
      refine isPrefixL_of_both _ _ (b ++ [x]) h (isPrefixL_self_append _ _) ?_
      simp only [List.length_append, List.length_cons, List.length_nil]
      omega
    exact isPrefixL_mem _ _ hpb x (by simp)

theorem lineMatches_excl (v w l : String) (hvw : v ≠ w) (hv : '=' ∉ v.data)
    (hw : '=' ∉ w.data) (h : lineMatches v l = true) : lineMatches w l = false := by
  by_contra hc
  simp only [Bool.not_eq_false] at hc
  rw [lineMatches] at h hc
  rcases Nat.le_total (v.data.length + 1) (w.data.length + 1) with hle | hle
  · have hpw : isPrefixL (v.data ++ ['=']) (w.data ++ ['=']) = true := by
      refine isPrefixL_of_both _ _ l.data h hc ?_
      simpa using hle
    rcases prefix_sandwich _ _ _ hpw with heq | hmem
    · exact hvw (string_data_inj heq)
    · exact hw hmem
  · have hpw : isPrefixL (w.data ++ ['=']) (v.data ++ ['=']) = true := by
      refine isPrefixL_of_both _ _ l.data hc h ?_
      simpa using hle
    rcases prefix_sandwich _ _ _ hpw with heq | hmem
    · exact hvw (string_data_inj heq.symm)
    · exact hv hmem

/-! ## Upsert algebra

A key/value pair is *settled* in a file when at least one line matches the
key and every matching line already carries the upserted value.  After an
upsert its pair is settled, an upsert of a settled pair is the identity, and
settledness is preserved by upserts of compatible pairs (same key and value,
or a different key when neither key contains `=`). -/

def SettledC (k val : String) (c : FileContent) : Prop :=
  (∃ l ∈ c, lineMatches k l = true) ∧
  ∀ l ∈ c, lineMatches k l = true → l = k ++ "=" ++ val

theorem settledC_upsert (k val : String) (c : FileContent) :
    SettledC k val (upsertLine k val c) := by
  rw [upsertLine]
  by_cases hany : c.any (lineMatches k)
  · rw [if_pos hany]
    obtain ⟨l0, hl0, hm0⟩ := List.any_eq_true.mp hany
    constructor
    · refine ⟨k ++ "=" ++ val, ?_, lineMatches_newLine k val⟩
      exact List.mem_map.mpr ⟨l0, hl0, by rw [if_pos hm0]⟩
    · intro l hl hm
      obtain ⟨l', hl', he⟩ := List.mem_map.mp hl
      by_cases hm' : lineMatches k l' = true
      · rw [← he, if_pos hm']
      · rw [← he, if_neg hm'] at hm
        exact absurd hm hm'
  · rw [if_neg hany]
    constructor
    · exact ⟨k ++ "=" ++ val, by simp, lineMatches_newLine k val⟩
    · intro l hl hm
      rcases List.mem_append.mp hl with hl | hl
      · exact absurd (List.any_eq_true.mpr ⟨l, hl, hm⟩) hany
      · simpa using hl

theorem upsert_of_settledC (k val : String) (c : FileContent)
    (h : SettledC k val c) : upsertLine k val c = c := by
  obtain ⟨⟨l0, hl0, hm0⟩, hall⟩ := h
  rw [upsertLine, if_pos (List.any_eq_true.mpr ⟨l0, hl0, hm0⟩)]
  conv_rhs => rw [← List.map_id c]
  apply List.map_congr_left
  intro l hl
  by_cases hm : lineMatches k l = true
  · simp only [hm, if_pos rfl, id]
    exact (hall l hl hm).symm
  · simp [hm]

theorem settledC_upsert_other (k val k' val' : String) (c : FileContent)
    (h : SettledC k val c)
    (hcompat : (k' = k ∧ val' = val) ∨ (k' ≠ k ∧ '=' ∉ k.data ∧ '=' ∉ k'.data)) :
    SettledC k val (upsertLine k' val' c) := by
  rcases hcompat with ⟨hk, hv⟩ | ⟨hne, hkf, hkf'⟩
  · rw [hk, hv]
    exact settledC_upsert k val c
  · have hdis : ∀ l : String, lineMatches k l = true → lineMatches k' l = false :=
      fun l hm => lineMatches_excl k k' l (fun he => hne he.symm) hkf hkf' hm
    have hnewmiss : lineMatches k (k' ++ "=" ++ val') = false :=
      lineMatches_excl k' k (k' ++ "=" ++ val') hne hkf' hkf (lineMatches_newLine k' val')
    obtain ⟨⟨l0, hl0, hm0⟩, hall⟩ := h
    rw [upsertLine]
    by_cases hany : c.any (lineMatches k')
    · rw [if_pos hany]
      constructor
      · refine ⟨l0, List.mem_map.mpr ⟨l0, hl0, ?_⟩, hm0⟩
        rw [if_neg]
        simp [Bool.eq_false_iff.mp (hdis l0 hm0)]
      · intro l hl hm
        obtain ⟨l', hl', he⟩ := List.mem_map.mp hl
        by_cases hm' : lineMatches k' l' = true
        · rw [← he, if_pos hm'] at hm
          rw [hnewmiss] at hm
          cases hm
        · rw [← he, if_neg hm'] at hm
          rw [← he, if_neg hm']
          exact hall l' hl' hm
    · rw [if_neg hany]
      constructor
      · exact ⟨l0, List.mem_append_left _ hl0, hm0⟩
      · intro l hl hm
        rcases List.mem_append.mp hl with hl | hl
        · exact hall l hl hm
        · have : l = k' ++ "=" ++ val' := by simpa using hl
          rw [this, hnewmiss] at hm
          cases hm

/-- Fold a list of `(key, value)` upserts over a file content. -/
def runC (ops : List (String × String)) (c : FileContent) : FileContent :=
  ops.foldl (fun c kv => upsertLine kv.1 kv.2 c) c

/-- Two upsert operations are compatible when equal keys force equal
values. -/
def OpsCompat (a b : String × String) : Prop :=
  a.1 = b.1 → a.2 = b.2

theorem settledC_runC_preserve (k val : String) (ops : List (String × String))
    (c : FileContent) (h : SettledC k val c)
    (hops : ∀ b ∈ ops, ('=' ∉ b.1.data) ∧ OpsCompat (k, val) b)
    (hkf : '=' ∉ k.data) :
    SettledC k val (runC ops c) := by
  induction ops generalizing c with
  | nil => exact h
  | cons b rest ih =>
    have hb := hops b (List.mem_cons_self _ _)
    refine ih (upsertLine b.1 b.2 c) ?_ (fun b' hb' => hops b' (List.mem_cons_of_mem _ hb'))
    apply settledC_upsert_other k val b.1 b.2 c h
    by_cases hkk : b.1 = k
    · exact Or.inl ⟨hkk, (hb.2 hkk.symm).symm⟩
    · exact Or.inr ⟨hkk, hkf, hb.1⟩

theorem settledC_after_runC (ops : List (String × String)) (c : FileContent)
    (hkeys : ∀ b ∈ ops, '=' ∉ b.1.data)
    (hcompat : ∀ a ∈ ops, ∀ b ∈ ops, OpsCompat a b) :
    ∀ op ∈ ops, SettledC op.1 op.2 (runC ops c) := by
  induction ops generalizing c with
  | nil => simp
  | cons b rest ih =>
    intro op hop
    rcases List.mem_cons.mp hop with hop | hop
    · subst hop
      show SettledC op.1 op.2 (runC rest (upsertLine op.1 op.2 c))
      refine settledC_runC_preserve op.1 op.2 rest _ (settledC_upsert op.1 op.2 c) ?_
        (hkeys op (List.mem_cons_self _ _))
      intro b' hb'
      exact ⟨hkeys b' (List.mem_cons_of_mem _ hb'),
        hcompat op (List.mem_cons_self _ _) b' (List.mem_cons_of_mem _ hb')⟩
    · exact ih (upsertLine b.1 b.2 c)
        (fun b' hb' => hkeys b' (List.mem_cons_of_mem _ hb'))
        (fun a ha b' hb' =>
          hcompat a (List.mem_cons_of_mem _ ha) b' (List.mem_cons_of_mem _ hb'))
        op hop

/-! ## Atom decomposition of the orchestration

Each file-touching step of the pipeline decomposes into a *touch* atom
(`ensureFile`: create the file empty when missing, otherwise leave it) and a
sequence of upsert atoms on the same path.  The idempotence argument runs
over these atoms. -/

/-- One atom: touch a path (`none`) or upsert a key/value pair into it. -/
abbrev Atom := String × Option (String × String)

/-- Apply one atom to the file system. -/
def atomApply (fs : FS) (a : Atom) : FS :=
  match a.2 with
  | none => setFS fs a.1 (readOrEmpty fs a.1)
  | some kv => setFS fs a.1 (upsertLine kv.1 kv.2 (readOrEmpty fs a.1))

/-- Run a list of atoms in order. -/
def runAtoms (atoms : List Atom) (fs : FS) : FS :=
  atoms.foldl atomApply fs

/-- An atom is settled: its path exists, and for an upsert atom the pair is
settled in the path's content. -/
def SettledA (a : Atom) (fs : FS) : Prop :=
  match a.2 with
  | none => ∃ c, lookupFS fs a.1 = some c
  | some kv => ∃ c, lookupFS fs a.1 = some c ∧ SettledC kv.1 kv.2 c

/-- Key/value compatibility between two atoms (paths unconstrained: the
pipeline derives every value from its key alone). -/
def AtomCompat (a b : Atom) : Prop :=
  ∀ kv kv', a.2 = some kv → b.2 = some kv' → kv.1 = kv'.1 → kv.2 = kv'.2

/-- An atom's upsert key contains no `=`. -/
def AtomKeyFree (a : Atom) : Prop :=
  ∀ kv, a.2 = some kv → '=' ∉ kv.1.data

theorem settledA_atomApply (a : Atom) (fs : FS) : SettledA a (atomApply fs a) := by
  match a with
  | (p, none) => exact ⟨readOrEmpty fs p, lookupFS_setFS_self fs p _⟩
  | (p, some kv) =>
    exact ⟨upsertLine kv.1 kv.2 (readOrEmpty fs p), lookupFS_setFS_self fs p _,
      settledC_upsert kv.1 kv.2 _⟩

theorem atomApply_of_settledA (a : Atom) (fs : FS) (h : SettledA a fs) :
    atomApply fs a = fs := by
  match a with
  | (p, none) =>
    obtain ⟨c, hc⟩ := h
    show setFS fs p (readOrEmpty fs p) = fs
    rw [readOrEmpty, hc]
    exact setFS_of_lookup_eq fs p c hc
  | (p, some kv) =>
    obtain ⟨c, hc, hs⟩ := h
    show setFS fs p (upsertLine kv.1 kv.2 (readOrEmpty fs p)) = fs
    rw [readOrEmpty, hc]
    show setFS fs p (upsertLine kv.1 kv.2 c) = fs
    rw [upsert_of_settledC kv.1 kv.2 c hs]
    exact setFS_of_lookup_eq fs p c hc

theorem settledA_atomApply_other (a b : Atom) (fs : FS) (h : SettledA a fs)
    (hcompat : AtomCompat b a) (hfa : AtomKeyFree a) (hfb : AtomKeyFree b) :
    SettledA a (atomApply fs b) := by
  obtain ⟨p, oa⟩ := a
  obtain ⟨q, ob⟩ := b
  by_cases hp : q = p
  · subst hp
    match oa, ob with
    | none, none =>
      obtain ⟨c, hc⟩ := h
      exact ⟨readOrEmpty fs q, lookupFS_setFS_self fs q _⟩
    | none, some kv =>
      exact ⟨_, lookupFS_setFS_self fs q _⟩
    | some kv, none =>
      obtain ⟨c, hc, hs⟩ := h
      refine ⟨c, ?_, hs⟩
      show lookupFS (setFS fs q (readOrEmpty fs q)) q = some c
      rw [readOrEmpty]
      have hc' : lookupFS fs q = some c := hc
      rw [hc']
      exact lookupFS_setFS_self fs q c
    | some kv, some kv' =>
      obtain ⟨c, hc, hs⟩ := h
      have hc' : lookupFS fs q = some c := hc
      refine ⟨upsertLine kv'.1 kv'.2 c, ?_, ?_⟩
      · show lookupFS (setFS fs q (upsertLine kv'.1 kv'.2 (readOrEmpty fs q))) q = _
        rw [readOrEmpty, hc']
        exact lookupFS_setFS_self fs q _
      · apply settledC_upsert_other kv.1 kv.2 kv'.1 kv'.2 c hs
        by_cases hkk : kv'.1 = kv.1
        · exact Or.inl ⟨hkk, hcompat kv' kv rfl rfl hkk⟩
        · exact Or.inr ⟨hkk, hfa kv rfl, hfb kv' rfl⟩
  · have hlook : lookupFS (atomApply fs (q, ob)) p = lookupFS fs p := by
      match ob with
      | none => exact lookupFS_setFS_ne fs q p _ (fun he => hp he.symm)
      | some kv => exact lookupFS_setFS_ne fs q p _ (fun he => hp he.symm)
    match oa with
    | none =>
      obtain ⟨c, hc⟩ := h
      exact ⟨c, by rw [show ((p, none) : Atom).1 = p from rfl] at hc ⊢; rw [hlook]; exact hc⟩
    | some kv =>
      obtain ⟨c, hc, hs⟩ := h
      refine ⟨c, ?_, hs⟩
      show lookupFS (atomApply fs (q, ob)) p = some c
      rw [hlook]
      exact hc

theorem settledA_runAtoms_preserve (a : Atom) (atoms : List Atom) (fs : FS)
    (h : SettledA a fs) (hfa : AtomKeyFree a)
    (hats : ∀ b ∈ atoms, AtomCompat b a ∧ AtomKeyFree b) :
    SettledA a (runAtoms atoms fs) := by
  induction atoms generalizing fs with
  | nil => exact h
  | cons b rest ih =>
    have hb := hats b (List.mem_cons_self _ _)
    exact ih (atomApply fs b)
      (settledA_atomApply_other a b fs h hb.1 hfa hb.2)
      (fun b' hb' => hats b' (List.mem_cons_of_mem _ hb'))

theorem settledA_after_runAtoms (atoms : List Atom) (fs : FS)
    (hkeys : ∀ a ∈ atoms, AtomKeyFree a)
    (hcompat : ∀ a ∈ atoms, ∀ b ∈ atoms, AtomCompat a b) :
    ∀ a ∈ atoms, SettledA a (runAtoms atoms fs) := by
  induction atoms generalizing fs with
  | nil => simp
  | cons b rest ih =>
    intro a ha
    rcases List.mem_cons.mp ha with ha | ha
    · subst ha
      show SettledA a (runAtoms rest (atomApply fs a))
      refine settledA_runAtoms_preserve a rest _ (settledA_atomApply a fs)
        (hkeys a (List.mem_cons_self _ _)) ?_
      intro b' hb'
      exact ⟨hcompat b' (List.mem_cons_of_mem _ hb') a (List.mem_cons_self _ _),
        hkeys b' (List.mem_cons_of_mem _ hb')⟩
    · exact ih (atomApply fs b)
        (fun a' ha' => hkeys a' (List.mem_cons_of_mem _ ha'))
        (fun a' ha' b' hb' =>
          hcompat a' (List.mem_cons_of_mem _ ha') b' (List.mem_cons_of_mem _ hb'))
        a ha

theorem runAtoms_of_settled (atoms : List Atom) (fs : FS)
    (h : ∀ a ∈ atoms, SettledA a fs) : runAtoms atoms fs = fs := by
  induction atoms with
  | nil => rfl
  | cons b rest ih =>
    show runAtoms rest (atomApply fs b) = fs
    rw [atomApply_of_settledA b fs (h b (List.mem_cons_self _ _))]
    exact ih (fun a ha => h a (List.mem_cons_of_mem _ ha))

/-- Idempotence of an atom run whose upsert keys are `=`-free and whose
values are determined by their keys. -/
theorem runAtoms_idem (atoms : List Atom) (fs : FS)
    (hkeys : ∀ a ∈ atoms, AtomKeyFree a)
    (hcompat : ∀ a ∈ atoms, ∀ b ∈ atoms, AtomCompat a b) :
    runAtoms atoms (runAtoms atoms fs) = runAtoms atoms fs :=
  runAtoms_of_settled atoms _ (settledA_after_runAtoms atoms fs hkeys hcompat)

/-- The atoms of one file-touching step: touch the path, then run its
upserts. -/
def fileAtoms (p : String) (ops : List (String × String)) : List Atom :=
  (p, none) :: ops.map fun kv => (p, some kv)

theorem runAtoms_append (xs ys : List Atom) (fs : FS) :
    runAtoms (xs ++ ys) fs = runAtoms ys (runAtoms xs fs) :=
  List.foldl_append _ _ _ _

theorem runAtoms_upserts_setFS (p : String) (ops : List (String × String))
    (fs : FS) (c : FileContent) :
    runAtoms (ops.map fun kv => (p, some kv)) (setFS fs p c) = setFS fs p (runC ops c) := by
  induction ops generalizing c with
  | nil => rfl
  | cons kv rest ih =>
    show runAtoms (rest.map fun kv => (p, some kv))
      (atomApply (setFS fs p c) (p, some kv)) = _
    have : atomApply (setFS fs p c) (p, some kv) = setFS fs p (upsertLine kv.1 kv.2 c) := by
      show setFS (setFS fs p c) p (upsertLine kv.1 kv.2 (readOrEmpty (setFS fs p c) p)) = _
      rw [readOrEmpty, lookupFS_setFS_self, Option.getD_some, setFS_setFS]
    rw [this, ih]
    rfl

theorem runAtoms_fileAtoms (p : String) (ops : List (String × String)) (fs : FS) :
    runAtoms (fileAtoms p ops) fs = setFS fs p (runC ops (readOrEmpty fs p)) := by
  show runAtoms (ops.map fun kv => (p, some kv)) (atomApply fs (p, none)) = _
  show runAtoms (ops.map fun kv => (p, some kv)) (setFS fs p (readOrEmpty fs p)) = _
  exact runAtoms_upserts_setFS p ops fs (readOrEmpty fs p)

/-- The engaged upserts of an `env_vars` rule: one per listed variable that
resolves to a truthy base port. -/
def envVarsOps (m : List (String × JsNum)) (varSpec : String) (off : Int) :
    List (String × String) :=
  ((jsSplit varSpec ",").map jsTrim).filterMap fun v =>
    match lookupA m v with
    | none => none
    | some b => if b.truthy then some (v, JsNum.toStr (b.add off)) else none

/-- The upserts of the port-mapping step (every entry, no truthiness
check). -/
def portOps (m : List (String × JsNum)) (off : Int) : List (String × String) :=
  m.map fun kv => (kv.1, JsNum.toStr (kv.2.add off))

/-- The upserts of the container-name step. -/
def contOps (cfg : Config) (name : String) (idx : Int) : List (String × String) :=
  cfg.containerNames.map fun kv => (kv.1, substituteTemplate cfg.portMappings kv.2 name idx 0)

theorem updateEnvVarsContent_eq_runC (m : List (String × JsNum)) (varSpec : String)
    (off : Int) (c : FileContent) :
    updateEnvVarsContent m varSpec off c = runC (envVarsOps m varSpec off) c := by
  rw [updateEnvVarsContent, envVarsOps]
  generalize (jsSplit varSpec ",").map jsTrim = vars
  induction vars generalizing c with
  | nil => rfl
  | cons v rest ih =>
    show rest.foldl (envVarsStep m off) (envVarsStep m off c v) = _
    rw [envVarsStep]
    cases hl : lookupA m v with
    | none => simpa [hl] using ih c
    | some b =>
      cases hb : b.truthy with
      | false => simpa [hl, hb] using ih c
      | true => simpa [hl, hb] using ih (upsertLine v (JsNum.toStr (b.add off)) c)

theorem updatePortVariablesContent_eq_runC (m : List (String × JsNum)) (off : Int)
    (c : FileContent) :
    updatePortVariablesContent m off c = runC (portOps m off) c := by
  rw [updatePortVariablesContent, portOps, runC, List.foldl_map]

theorem updateContainerNamesContent_eq_runC (cfg : Config) (name : String) (idx : Int)
    (c : FileContent) :
    updateContainerNamesContent cfg name idx c = runC (contOps cfg name idx) c := by
  rw [updateContainerNamesContent, contOps, runC, List.foldl_map]

/-- The atoms of the whole batch (steps 3–5) when every file-update rule
uses the `env_vars` strategy. -/
def pipelineAtoms (cfg : Config) (name dir : String) (idx off : Int) : List Atom :=
  (cfg.fileUpdates.map fun u =>
    fileAtoms (joinPath dir u.filePath) (envVarsOps cfg.portMappings u.spec off)).flatten
  ++ (if cfg.portMappings.isEmpty then [] else fileAtoms (joinPath dir ".env") (portOps cfg.portMappings off))
  ++ (if cfg.containerNames.isEmpty then [] else fileAtoms (joinPath dir ".env") (contOps cfg name idx))

theorem applyFileUpdates_eq_runAtoms (cfg : Config) (rules : List FileUpdate)
    (name dir : String) (idx off : Int) (fs : FS)
    (hall : ∀ u ∈ rules, u.updateType = .envVars) :
    applyFileUpdates cfg rules name dir idx off fs =
      .ok (runAtoms ((rules.map fun u =>
        fileAtoms (joinPath dir u.filePath) (envVarsOps cfg.portMappings u.spec off)).flatten) fs) := by
  induction rules generalizing fs with
  | nil => rfl
  | cons u rest ih =>
    have hu := hall u (List.mem_cons_self _ _)
    have hproc : processFileUpdate cfg u name dir idx off fs =
        .ok (runAtoms (fileAtoms (joinPath dir u.filePath) (envVarsOps cfg.portMappings u.spec off)) fs) := by
      rw [processFileUpdate, hu]
      exact congrArg Except.ok
        (by rw [runAtoms_fileAtoms, updateEnvVars, updateEnvVarsContent_eq_runC])
    rw [applyFileUpdates, hproc]
    show applyFileUpdates cfg rest name dir idx off _ = _
    rw [ih _ (fun u' hu' => hall u' (List.mem_cons_of_mem _ hu'))]
    rw [List.map_cons, List.flatten_cons, runAtoms_append]

theorem updateEnvironmentFiles_eq_runAtoms (cfg : Config) (name dir : String)
    (idx : Int) (fs : FS)
    (hall : ∀ u ∈ cfg.fileUpdates, u.updateType = .envVars) :
    updateEnvironmentFiles cfg name dir idx fs =
      .ok (runAtoms (pipelineAtoms cfg name dir idx (calculatePortOffset cfg idx)) fs) := by
  simp only [updateEnvironmentFiles]
  rw [applyFileUpdates_eq_runAtoms cfg cfg.fileUpdates name dir idx _ fs hall]
  simp only [Except.map]
  refine congrArg Except.ok ?_
  rw [pipelineAtoms, runAtoms_append, runAtoms_append]
  have hport :
      (if cfg.portMappings.isEmpty then
        runAtoms ((cfg.fileUpdates.map fun u =>
          fileAtoms (joinPath dir u.filePath)
            (envVarsOps cfg.portMappings u.spec (calculatePortOffset cfg idx))).flatten) fs
       else updatePortVariables cfg dir (calculatePortOffset cfg idx)
        (runAtoms ((cfg.fileUpdates.map fun u =>
          fileAtoms (joinPath dir u.filePath)
            (envVarsOps cfg.portMappings u.spec (calculatePortOffset cfg idx))).flatten) fs)) =
      runAtoms (if cfg.portMappings.isEmpty then []
        else fileAtoms (joinPath dir ".env") (portOps cfg.portMappings (calculatePortOffset cfg idx)))
        (runAtoms ((cfg.fileUpdates.map fun u =>
          fileAtoms (joinPath dir u.filePath)
            (envVarsOps cfg.portMappings u.spec (calculatePortOffset cfg idx))).flatten) fs) := by
    by_cases hm : cfg.portMappings.isEmpty
    · simp [hm, runAtoms]
    · rw [if_neg hm, if_neg hm]
      rw [runAtoms_fileAtoms, updatePortVariables, updatePortVariablesContent_eq_runC]
  rw [hport]
  by_cases hc : cfg.containerNames.isEmpty
  · simp [hc, runAtoms]
  · rw [if_neg hc, if_neg hc]
    rw [runAtoms_fileAtoms, updateContainerNames, updateContainerNamesContent_eq_runC]

/-- Well-formedness of the configured variable tables: keys are `=`-free,
duplicate-free within each table, and the port and container tables name
disjoint variables. -/
abbrev KeysOk (cfg : Config) : Prop :=
  (∀ p ∈ cfg.portMappings, '=' ∉ p.1.data) ∧
  (∀ p ∈ cfg.containerNames, '=' ∉ p.1.data) ∧
  (cfg.portMappings.map Prod.fst).Nodup ∧
  (cfg.containerNames.map Prod.fst).Nodup ∧
  (∀ p ∈ cfg.portMappings, ∀ q ∈ cfg.containerNames, p.1 ≠ q.1)

/-- The value every pipeline upsert writes, as a function of its key alone. -/
def valueF (cfg : Config) (name : String) (idx off : Int) (k : String) : Option String :=
  match lookupA cfg.portMappings k with
  | some b => some (JsNum.toStr (b.add off))
  | none =>
    (lookupA cfg.containerNames k).map fun tpl =>
      substituteTemplate cfg.portMappings tpl name idx 0

theorem pipelineAtoms_value (cfg : Config) (name dir : String) (idx off : Int)
    (hok : KeysOk cfg) :
    ∀ a ∈ pipelineAtoms cfg name dir idx off, ∀ kv : String × String, a.2 = some kv →
      ('=' ∉ kv.1.data) ∧ valueF cfg name idx off kv.1 = some kv.2 := by
  obtain ⟨hpf, hcf, hpnd, hcnd, hdis⟩ := hok
  intro a ha kv hkv
  rw [pipelineAtoms] at ha
  have hofKV : ∀ (p : String) (ops : List (String × String)), a ∈ fileAtoms p ops → kv ∈ ops := by
    intro p ops hmem
    rcases List.mem_cons.mp hmem with he | he
    · rw [he] at hkv
      cases hkv
    · obtain ⟨kv', hkv', he'⟩ := List.mem_map.mp he
      rw [← he'] at hkv
      cases hkv
      exact hkv'
  have henv : ∀ spec : String, kv ∈ envVarsOps cfg.portMappings spec off →
      ('=' ∉ kv.1.data) ∧ valueF cfg name idx off kv.1 = some kv.2 := by
    intro spec hmem
    obtain ⟨v, _, hv⟩ := List.mem_filterMap.mp hmem
    cases hl : lookupA cfg.portMappings v with
    | none =>
      simp only [hl] at hv
      cases hv
    | some b =>
      simp only [hl] at hv
      by_cases hb : b.truthy
      · rw [if_pos hb] at hv
        cases hv
        have hmemA := lookupA_mem cfg.portMappings v b hl
        exact ⟨hpf (v, b) hmemA, by rw [valueF, hl]⟩
      · rw [if_neg hb] at hv
        cases hv
  have hport : kv ∈ portOps cfg.portMappings off →
      ('=' ∉ kv.1.data) ∧ valueF cfg name idx off kv.1 = some kv.2 := by
    intro hmem
    obtain ⟨p, hp, he⟩ := List.mem_map.mp hmem
    cases he
    refine ⟨hpf p hp, ?_⟩
    rw [valueF, lookupA_of_nodup_mem cfg.portMappings p.1 p.2 hpnd hp]
  have hcont : kv ∈ contOps cfg name idx →
      ('=' ∉ kv.1.data) ∧ valueF cfg name idx off kv.1 = some kv.2 := by
    intro hmem
    obtain ⟨q, hq, he⟩ := List.mem_map.mp hmem
    cases he
    refine ⟨hcf q hq, ?_⟩
    have hnone : lookupA cfg.portMappings q.1 = none := by
      apply lookupA_eq_none
      intro hin
      obtain ⟨p, hp, hpe⟩ := List.mem_map.mp hin
      exact hdis p hp q hq hpe
    rw [valueF, hnone, lookupA_of_nodup_mem cfg.containerNames q.1 q.2 hcnd hq]
    rfl
  rcases List.mem_append.mp ha with ha | ha
  · rcases List.mem_append.mp ha with ha | ha
    · obtain ⟨l, hl, hal⟩ := List.mem_flatten.mp ha
      obtain ⟨u, _, hue⟩ := List.mem_map.mp hl
      rw [← hue] at hal
      exact henv u.spec (hofKV _ _ hal)
    · by_cases hm : cfg.portMappings.isEmpty
      · rw [if_pos hm] at ha
        cases ha
      · rw [if_neg hm] at ha
        exact hport (hofKV _ _ ha)
  · by_cases hc : cfg.containerNames.isEmpty
    · rw [if_pos hc] at ha
      cases ha
    · rw [if_neg hc] at ha
      exact hcont (hofKV _ _ ha)

/-- C2 (amended): re-running steps 3–5 with the same configuration and
index yields byte-identical files when every file-update rule uses the
`env_vars` strategy (upsert semantics), for well-formed variable tables
(`=`-free, duplicate-free, port/container-disjoint names): the `env_vars`
upserts, the port-mapping upserts, and the container-name upserts are
idempotent.  (`append` rules re-append their payload on every run — see the
counterexample — and `replace` rules are only idempotent when their pattern
does not match their own substituted output.) -/
theorem C2_theorem (cfg : Config) (name dir : String) (idx : Int) (fs fs₁ : FS)
    (hall : ∀ u ∈ cfg.fileUpdates, u.updateType = .envVars)
    (hok : KeysOk cfg)
    (h1 : updateEnvironmentFiles cfg name dir idx fs = .ok fs₁) :
    updateEnvironmentFiles cfg name dir idx fs₁ = .ok fs₁ := by
  rw [updateEnvironmentFiles_eq_runAtoms cfg name dir idx fs hall] at h1
  have hfs₁ : fs₁ = runAtoms (pipelineAtoms cfg name dir idx (calculatePortOffset cfg idx)) fs := by
    cases h1
    rfl
  have hv := pipelineAtoms_value cfg name dir idx (calculatePortOffset cfg idx) hok
  have hkeys : ∀ a ∈ pipelineAtoms cfg name dir idx (calculatePortOffset cfg idx), AtomKeyFree a :=
    fun a ha kv hkv => (hv a ha kv hkv).1
  have hcompat : ∀ a ∈ pipelineAtoms cfg name dir idx (calculatePortOffset cfg idx),
      ∀ b ∈ pipelineAtoms cfg name dir idx (calculatePortOffset cfg idx), AtomCompat a b := by
    intro a ha b hb kv kv' hkva hkvb hk
    have ha' := (hv a ha kv hkva).2
    have hb' := (hv b hb kv' hkvb).2
    rw [hk] at ha'
    rw [ha'] at hb'
    exact Option.some.inj hb'
  rw [updateEnvironmentFiles_eq_runAtoms cfg name dir idx fs₁ hall, hfs₁,
    runAtoms_idem _ _ hkeys hcompat, ← hfs₁]

/-- Witness for C2: a concrete one-rule configuration, with a port mapping
and a container name, is idempotent on the concrete first-run output. -/
theorem C2_witness :
    updateEnvironmentFiles
      { startContainers := true, portOffsetIncrement := 10, envFiles := [],
        portMappings := [("API_PORT", JsNum.num 3000)],
        containerNames := [("DB_CONTAINER", "db-{{WORKTREE_NAME}}")],
        fileUpdates := [⟨".env", .envVars, "API_PORT", none, none⟩] }
      "w" "d" 2 [("d/.env", ["", "API_PORT=3020", "DB_CONTAINER=db-w"])] =
      .ok [("d/.env", ["", "API_PORT=3020", "DB_CONTAINER=db-w"])] :=
  C2_theorem _ "w" "d" 2 [] _ (by decide) (by decide) (by rfl)

/-- Counterexample to C2 as stated: a batch containing an `append` rule is
not idempotent — the second run appends the payload a second time, so the
files are not byte-identical. -/
theorem C2_counterexample :
    updateEnvironmentFiles
      { startContainers := true, portOffsetIncrement := 10, envFiles := [],
        portMappings := [], containerNames := [],
        fileUpdates := [⟨"a.txt", .append, "x", none, none⟩] }
      "w" "d" 1 [("d/a.txt", ["hello"])] = .ok [("d/a.txt", ["hello", "x"])]
    ∧ updateEnvironmentFiles
      { startContainers := true, portOffsetIncrement := 10, envFiles := [],
        portMappings := [], containerNames := [],
        fileUpdates := [⟨"a.txt", .append, "x", none, none⟩] }
      "w" "d" 1 [("d/a.txt", ["hello", "x"])] = .ok [("d/a.txt", ["hello", "x", "x"])]
    ∧ ([("d/a.txt", ["hello", "x", "x"])] : FS) ≠ [("d/a.txt", ["hello", "x"])] :=
  ⟨rfl, rfl, by decide⟩

/-- C3: for every worktree index ≥ 0 and configured increment > 0 the port
offset is `index * increment`, and it is `0` at index `0` for any
increment; the computation is a pure total function by construction. -/
theorem C3_theorem (cfg : Config) (idx : Int) (h0 : 0 ≤ idx)
    (hinc : 0 < cfg.portOffsetIncrement) :
    calculatePortOffset cfg idx = idx * cfg.portOffsetIncrement ∧
    calculatePortOffset cfg 0 = 0 :=
  ⟨rfl, Int.zero_mul _⟩

/-- Witness for C3 at index 3 with the default increment 10. -/
theorem C3_witness :
    calculatePortOffset defaultConfig 3 = 3 * defaultConfig.portOffsetIncrement ∧
    calculatePortOffset defaultConfig 0 = 0 :=
  C3_theorem defaultConfig 3 (by decide) (by decide)

/-- C1 (amended): an `env_vars` update splits its spec on commas and trims
each name; a variable absent from the port-mapping table is skipped; a
variable with a known (truthy) base port is upserted — when some line
matches `^VAR=.*$`, **every** matching line is replaced by
`VAR=basePort+offset` (the source applies the `gm` regex with a global
replace, not first-match-only) with all other lines unchanged in order,
otherwise the line is appended; a missing target file is first created
empty and then processed, never an error. -/
theorem C1_theorem (m : List (String × JsNum)) (off : Int) :
    (∀ varSpec c, updateEnvVarsContent m varSpec off c =
      ((jsSplit varSpec ",").map jsTrim).foldl (envVarsStep m off) c)
    ∧ (∀ v c, lookupA m v = none → envVarsStep m off c v = c)
    ∧ (∀ v (b : Int) c, lookupA m v = some (.num b) → b ≠ 0 →
        (c.any (lineMatches v) = true →
          envVarsStep m off c v =
            c.map fun l => if lineMatches v l then v ++ "=" ++ intToStr (b + off) else l)
        ∧ (c.any (lineMatches v) = false →
          envVarsStep m off c v = c ++ [v ++ "=" ++ intToStr (b + off)]))
    ∧ (∀ fs path varSpec, lookupFS fs path = none →
        updateEnvVars m path varSpec off fs =
          setFS fs path (updateEnvVarsContent m varSpec off [""])) := by
  refine ⟨fun varSpec c => rfl, ?_, ?_, ?_⟩
  · intro v c hl
    simp only [envVarsStep, hl]
  · intro v b c hl hb
    have htr : JsNum.truthy (.num b) = true := by simp [JsNum.truthy, hb]
    constructor
    · intro hany
      simp only [envVarsStep, hl, htr, if_pos, upsertLine, hany, ite_true]
      rfl
    · intro hany
      simp only [envVarsStep, hl, htr, if_pos, upsertLine, hany, Bool.false_eq_true,
        ite_false]
      rfl
  · intro fs path varSpec hmiss
    rw [updateEnvVars, readOrEmpty, hmiss]
    rfl

/-- Witness for C1: with base port 100 and offset 5, a single matching line
is replaced in place and an unknown variable leaves the file unchanged. -/
theorem C1_witness :
    envVarsStep [("A", JsNum.num 100)] 5 ["A=1", "B=2"] "A" = ["A=105", "B=2"]
    ∧ envVarsStep [("A", JsNum.num 100)] 5 ["B=1"] "C" = ["B=1"] := by
  have h := C1_theorem [("A", JsNum.num 100)] 5
  constructor
  · have h3 := (h.2.2.1 "A" 100 ["A=1", "B=2"] (by decide) (by decide)).1 (by decide)
    rw [h3]
    decide
  · exact h.2.1 "C" ["B=1"] (by decide)

/-- Counterexample to C1 as stated: with two lines matching `^A=.*$`, the
source replaces **both** (global multiline replace), not just the first —
the claimed result `["A=105", "A=2"]` is not produced. -/
theorem C1_counterexample :
    updateEnvVarsContent [("A", JsNum.num 100)] "A" 5 ["A=1", "A=2"] = ["A=105", "A=105"]
    ∧ updateEnvVarsContent [("A", JsNum.num 100)] "A" 5 ["A=1", "A=2"] ≠ ["A=105", "A=2"] :=
  ⟨by decide, by decide⟩

theorem foldl_portSubst_of_not_occurs (m : List (String × JsNum)) (off : Int)
    (template : String)
    (h : ∀ kv ∈ m, occursIn ("\x7b\x7b" ++ kv.1 ++ "\x7d\x7d").data template.data = false) :
    m.foldl (portSubstStep off) template = template := by
  induction m with
  | nil => rfl
  | cons kv rest ih =>
    show rest.foldl (portSubstStep off) (portSubstStep off template kv) = template
    rw [portSubstStep, jsReplaceAll_of_not_occurs _ _ _ (h kv (List.mem_cons_self _ _))]
    exact ih fun kv' hkv' => h kv' (List.mem_cons_of_mem _ hkv')

/-- C4: template rendering substitutes in the fixed order — every
`{{WORKTREE_NAME}}`, then every `{{WORKTREE_INDEX}}`, then every configured
port placeholder with `basePort + offset` rendered as a decimal string —
and a template containing none of the recognised placeholders is returned
verbatim; rendering is a total function for all inputs by construction. -/
theorem C4_theorem (m : List (String × JsNum)) (template name : String) (idx off : Int) :
    (substituteTemplate m template name idx off =
      m.foldl (portSubstStep off)
        (jsReplaceAll "{{WORKTREE_INDEX}}" (intToStr idx)
          (jsReplaceAll "{{WORKTREE_NAME}}" name template)))
    ∧ (occursIn "{{WORKTREE_NAME}}".data template.data = false →
       occursIn "{{WORKTREE_INDEX}}".data template.data = false →
       (∀ kv ∈ m, occursIn ("\x7b\x7b" ++ kv.1 ++ "\x7d\x7d").data template.data = false) →
       substituteTemplate m template name idx off = template) := by
  refine ⟨rfl, ?_⟩
  intro h1 h2 h3
  show m.foldl (portSubstStep off) _ = template
  rw [jsReplaceAll_of_not_occurs _ _ _ h1, jsReplaceAll_of_not_occurs _ _ _ h2]
  exact foldl_portSubst_of_not_occurs m off template h3

/-- Witness for C4: an unrecognised placeholder is left verbatim. -/
theorem C4_witness :
    substituteTemplate [("API_PORT", JsNum.num 3000)] "{{UNKNOWN}}" "feature1" 2 20 =
      "{{UNKNOWN}}" :=
  (C4_theorem [("API_PORT", JsNum.num 3000)] "{{UNKNOWN}}" "feature1" 2 20).2
    (by decide) (by decide) (by decide)

/-- C5: on a missing target file, a `replace` rule returns with the file
system completely unchanged (no creation, no error), while `env_vars` and
`append` rules create the target file. -/
theorem C5_theorem (cfg : Config) (u : FileUpdate) (name dir : String)
    (idx off : Int) (fs : FS)
    (hmiss : lookupFS fs (joinPath dir u.filePath) = none) :
    (u.updateType = .replace → processFileUpdate cfg u name dir idx off fs = .ok fs)
    ∧ (u.updateType = .envVars → ∃ fs' c, processFileUpdate cfg u name dir idx off fs = .ok fs'
        ∧ lookupFS fs' (joinPath dir u.filePath) = some c)
    ∧ (u.updateType = .append → ∃ fs' c, processFileUpdate cfg u name dir idx off fs = .ok fs'
        ∧ lookupFS fs' (joinPath dir u.filePath) = some c) := by
  refine ⟨?_, ?_, ?_⟩
  · intro hty
    rw [processFileUpdate, hty]
    simp only [replaceInFile, hmiss]
  · intro hty
    rw [processFileUpdate, hty]
    refine ⟨updateEnvVars cfg.portMappings (joinPath dir u.filePath) u.spec off fs,
      updateEnvVarsContent cfg.portMappings u.spec off
        (readOrEmpty fs (joinPath dir u.filePath)), rfl, ?_⟩
    rw [updateEnvVars]
    exact lookupFS_setFS_self fs _ _
  · intro hty
    rw [processFileUpdate, hty]
    refine ⟨appendFS fs (joinPath dir u.filePath)
        (substituteTemplate cfg.portMappings u.spec name idx off),
      "" :: jsSplit (substituteTemplate cfg.portMappings u.spec name idx off) "\n", rfl, ?_⟩
    simp only [appendFS, hmiss]
    exact lookupFS_setFS_self fs _ _

/-- Witness for C5: on an empty file system a `replace` rule is a no-op and
an `env_vars` rule creates its target. -/
theorem C5_witness :
    processFileUpdate defaultConfig ⟨"f.txt", .replace, "x", none, none⟩ "w" "d" 1 0 [] = .ok []
    ∧ ∃ fs' c, processFileUpdate defaultConfig ⟨"f.txt", .envVars, "A", none, none⟩ "w" "d" 1 0 []
        = .ok fs' ∧ lookupFS fs' (joinPath "d" "f.txt") = some c := by
  have h1 := C5_theorem defaultConfig ⟨"f.txt", .replace, "x", none, none⟩ "w" "d" 1 0 [] rfl
  have h2 := C5_theorem defaultConfig ⟨"f.txt", .envVars, "A", none, none⟩ "w" "d" 1 0 [] rfl
  exact ⟨h1.1 rfl, h2.2.1 rfl⟩

theorem jsNum_add_zero (b : JsNum) : b.add 0 = b := by
  cases b
  · show JsNum.num _ = _
    rw [Int.add_zero]
  · rfl

/-- Rendering with the *unshifted* base ports, stated as the spec words it:
the name placeholder gets the literal worktree name, the index placeholder
the real index, and every port placeholder the configured base port
itself (no offset). -/
def renderContainerName (m : List (String × JsNum)) (tpl name : String) (idx : Int) : String :=
  m.foldl (fun acc kv => jsReplaceAll ("\x7b\x7b" ++ kv.1 ++ "\x7d\x7d") kv.2.toStr acc)
    (jsReplaceAll "{{WORKTREE_INDEX}}" (intToStr idx)
      (jsReplaceAll "{{WORKTREE_NAME}}" name tpl))

theorem substituteTemplate_offset_zero (m : List (String × JsNum)) (tpl name : String)
    (idx : Int) :
    substituteTemplate m tpl name idx 0 = renderContainerName m tpl name idx := by
  rw [substituteTemplate, renderContainerName]
  generalize jsReplaceAll "{{WORKTREE_INDEX}}" (intToStr idx)
    (jsReplaceAll "{{WORKTREE_NAME}}" name tpl) = s
  induction m generalizing s with
  | nil => rfl
  | cons kv rest ih =>
    show rest.foldl (portSubstStep 0) (portSubstStep 0 s kv) = _
    rw [portSubstStep, jsNum_add_zero]
    exact ih _

theorem foldl_upsert_render (cfg : Config) (name : String) (idx : Int)
    (cns : List (String × String)) (c : FileContent) :
    cns.foldl (fun c kv =>
        upsertLine kv.1 (substituteTemplate cfg.portMappings kv.2 name idx 0) c) c =
      cns.foldl (fun c kv =>
        upsertLine kv.1 (renderContainerName cfg.portMappings kv.2 name idx) c) c := by
  induction cns generalizing c with
  | nil => rfl
  | cons kv rest ih =>
    show rest.foldl _ (upsertLine kv.1 (substituteTemplate cfg.portMappings kv.2 name idx 0) c) = _
    rw [substituteTemplate_offset_zero]
    exact ih _

/-- C6: the container-name step upserts, into the primary `.env` file, each
template rendered with the real worktree name and real worktree index but a
port offset of exactly `0` — so every port placeholder receives the
unshifted base port, and the result does not depend on the configured
increment or on any computed offset. -/
theorem C6_theorem (cfg : Config) (dir name : String) (idx : Int) (fs : FS) :
    updateContainerNames cfg dir name idx fs =
      setFS fs (joinPath dir ".env")
        (cfg.containerNames.foldl
          (fun c kv => upsertLine kv.1 (renderContainerName cfg.portMappings kv.2 name idx) c)
          (readOrEmpty fs (joinPath dir ".env"))) := by
  simp only [updateContainerNames, updateContainerNamesContent]
  exact congrArg (setFS fs _) (foldl_upsert_render cfg name idx cfg.containerNames _)

/-- C7 (amended): the batch has no error handling.  A malformed `replace`
rule (no `replacement` captured by the parser) whose target file exists
makes the rendering step call `.replace` on `undefined`: the resulting
`TypeError` propagates out of the batch and every subsequent rule is *not*
applied.  Only when the rule's target file is missing is the rule a silent
no-op, with processing continuing on the remaining rules. -/
theorem C7_theorem (cfg : Config) (u : FileUpdate) (rest : List FileUpdate)
    (name dir : String) (idx off : Int) (fs : FS) (c : FileContent)
    (hty : u.updateType = .replace) (hrep : u.replacement = none) :
    (lookupFS fs (joinPath dir u.filePath) = some c →
      applyFileUpdates cfg (u :: rest) name dir idx off fs =
        .error (.typeError "Cannot read properties of undefined (reading 'replace')"))
    ∧ (lookupFS fs (joinPath dir u.filePath) = none →
      applyFileUpdates cfg (u :: rest) name dir idx off fs =
        applyFileUpdates cfg rest name dir idx off fs) := by
  constructor
  · intro hsome
    rw [applyFileUpdates, processFileUpdate, hty]
    simp only [replaceInFile, hsome, hrep]
  · intro hnone
    rw [applyFileUpdates, processFileUpdate, hty]
    simp only [replaceInFile, hnone]

/-- Witness for C7 (amended), both scenarios at concrete inputs. -/
theorem C7_witness :
    applyFileUpdates defaultConfig
      [⟨"f.txt", .replace, "x", none, none⟩, ⟨".env", .envVars, "A", none, none⟩]
      "w" "d" 1 0 [("d/f.txt", ["hello"])] =
      .error (.typeError "Cannot read properties of undefined (reading 'replace')")
    ∧ applyFileUpdates defaultConfig
      [⟨"f.txt", .replace, "x", none, none⟩, ⟨".env", .envVars, "A", none, none⟩]
      "w" "d" 1 0 [] =
      applyFileUpdates defaultConfig [⟨".env", .envVars, "A", none, none⟩] "w" "d" 1 0 [] := by
  have h := C7_theorem defaultConfig ⟨"f.txt", .replace, "x", none, none⟩
    [⟨".env", .envVars, "A", none, none⟩] "w" "d" 1 0 [("d/f.txt", ["hello"])]
    ["hello"] rfl rfl
  have h' := C7_theorem defaultConfig ⟨"f.txt", .replace, "x", none, none⟩
    [⟨".env", .envVars, "A", none, none⟩] "w" "d" 1 0 [] ["hello"] rfl rfl
  exact ⟨h.1 rfl, h'.2 rfl⟩

/-- Counterexample to C7 as stated: a batch holding a malformed `replace`
rule (missing pattern and replacement, as the parser produces for
`"f|replace|x"`) followed by an `env_vars` rule crashes with the uncaught
`TypeError` when the replace target exists — the faulty rule is not skipped
and the subsequent rule never runs. -/
theorem C7_counterexample :
    updateEnvironmentFiles
      { startContainers := true, portOffsetIncrement := 10, envFiles := [],
        portMappings := [("A", JsNum.num 1)], containerNames := [],
        fileUpdates := [⟨"f.txt", .replace, "x", none, none⟩,
          ⟨".env", .envVars, "A", none, none⟩] }
      "w" "d" 1 [("d/f.txt", ["hello"])] =
      .error (.typeError "Cannot read properties of undefined (reading 'replace')") := rfl

theorem isPrefixL_cons_elim (a : Char) (as s : List Char)
    (h : isPrefixL (a :: as) s = true) :
    ∃ s', s = a :: s' ∧ isPrefixL as s' = true := by
  cases s with
  | nil => simp [isPrefixL] at h
  | cons b bs =>
    simp only [isPrefixL, Bool.and_eq_true, decide_eq_true_eq] at h
    exact ⟨bs, by rw [h.1], h.2⟩

/-- C8: configuration parsing is a total function (by construction: every
branch resolves to a default or an item skip and no exception point is
reached); an unparseable `PORT_OFFSET_INCREMENT` scalar retains the prior
value; and a `PORT_MAPPINGS` item whose number fails `parseInt` is still
inserted under its variable name with the `NaN` sentinel — not dropped and
not coerced to `0` — as the end-to-end instance shows. -/
theorem C8_theorem :
    (∀ (m : List (String × JsNum)) (item : String),
      2 ≤ (jsSplit item ":").length →
      (jsSplit item ":").getD 0 "" ≠ "" →
      jsParseInt ((jsSplit item ":").getD 1 "") = .nan →
      lookupA (addPortMapping m item) ((jsSplit item ":").getD 0 "") = some .nan)
    ∧ (∀ (content : String) (cfg : Config) (line : String),
      jsStartsWith (jsTrim line) "PORT_OFFSET_INCREMENT=" = true →
      jsParseInt ((jsSplit (jsTrim line) "=").getD 1 "") = .nan →
      (parseLine content cfg line).portOffsetIncrement = cfg.portOffsetIncrement)
    ∧ (parseConfig "PORT_MAPPINGS=(\n    \"CLIENT_PORT:not_a_number\"\n)").portMappings =
        [("CLIENT_PORT", JsNum.nan)] := by
  refine ⟨?_, ?_, rfl⟩
  · intro m item hlen hname hnan
    rw [addPortMapping]
    cases hp : jsSplit item ":" with
    | nil =>
      rw [hp] at hlen
      simp at hlen
    | cons a t =>
      cases t with
      | nil =>
        rw [hp] at hlen
        simp at hlen
      | cons b t' =>
        rw [hp] at hname hnan
        have hget : (a :: b :: t').get? 1 = some b := rfl
        have hgd0 : (a :: b :: t').getD 0 "" = a := rfl
        have hgd1 : (a :: b :: t').getD 1 "" = b := rfl
        rw [hgd0] at hname
        rw [hgd1] at hnan
        simp only [hget, hgd0]
        rw [if_pos hname, hnan]
        exact lookupA_insertA_self m a .nan
  · intro content cfg line hsw hnan
    have hP : ("PORT_OFFSET_INCREMENT=" : String).data =
        'P' :: ("ORT_OFFSET_INCREMENT=" : String).data := rfl
    have h1 : isPrefixL ('P' :: ("ORT_OFFSET_INCREMENT=" : String).data)
        (jsTrim line).data = true := by
      rw [← hP]
      exact hsw
    obtain ⟨s', hs', -⟩ := isPrefixL_cons_elim _ _ _ h1
    have hne : ¬(jsTrim line = "" ∨ jsStartsWith (jsTrim line) "#" = true) := by
      rintro (he | hh)
      · rw [he] at hs'
        simp at hs'
      · rw [jsStartsWith, show ("#" : String).data = ['#'] from rfl, hs'] at hh
        simp [isPrefixL] at hh
    have hnotSC : ¬ (jsStartsWith (jsTrim line) "START_CONTAINERS=" = true) := by
      rw [jsStartsWith, show ("START_CONTAINERS=" : String).data =
        'S' :: ("TART_CONTAINERS=" : String).data from rfl, hs']
      simp [isPrefixL]
    rw [parseLine, if_neg hne, if_neg hnotSC, if_pos hsw, hnan]

/-- Witness for C8: the spec's own example item and an unparseable scalar. -/
theorem C8_witness :
    lookupA (addPortMapping [] "CLIENT_PORT:not_a_number")
      ((jsSplit "CLIENT_PORT:not_a_number" ":").getD 0 "") = some .nan
    ∧ (parseLine "" defaultConfig "PORT_OFFSET_INCREMENT=abc").portOffsetIncrement =
        defaultConfig.portOffsetIncrement := by
  have h := C8_theorem
  exact ⟨h.1 [] "CLIENT_PORT:not_a_number" (by decide) (by decide) (by decide),
    h.2.1 "" defaultConfig "PORT_OFFSET_INCREMENT=abc" (by decide) (by decide)⟩

/-- C9 (amended): a `CONTAINER_NAMES` item is split on **every** `:` and
only the first two fields are kept by the destructuring: the stored template
is the text between the first and the second colon, and anything after a
second colon is silently dropped. -/
theorem C9_theorem (m : List (String × String)) (item : String)
    (hlen : 2 ≤ (jsSplit item ":").length)
    (hname : (jsSplit item ":").getD 0 "" ≠ "")
    (htpl : (jsSplit item ":").getD 1 "" ≠ "") :
    lookupA (addContainerName m item) ((jsSplit item ":").getD 0 "") =
      some ((jsSplit item ":").getD 1 "") := by
  rw [addContainerName]
  cases hp : jsSplit item ":" with
  | nil =>
    rw [hp] at hlen
    simp at hlen
  | cons a t =>
    cases t with
    | nil =>
      rw [hp] at hlen
      simp at hlen
    | cons b t' =>
      rw [hp] at hname htpl
      have hget : (a :: b :: t').get? 1 = some b := rfl
      have hgd0 : (a :: b :: t').getD 0 "" = a := rfl
      have hgd1 : (a :: b :: t').getD 1 "" = b := rfl
      rw [hgd0] at hname
      rw [hgd1] at htpl
      simp only [hget, hgd0, hgd1]
      rw [if_pos ⟨hname, htpl⟩]
      exact lookupA_insertA_self m a b

/-- Witness for C9 (amended): `VAR:a:b` stores template `a`. -/
theorem C9_witness :
    lookupA (addContainerName [] "VAR:a:b") ((jsSplit "VAR:a:b" ":").getD 0 "") =
      some ((jsSplit "VAR:a:b" ":").getD 1 "") :=
  C9_theorem [] "VAR:a:b" (by decide) (by decide) (by decide)

/-- Counterexample to C9 as stated: for the item `VAR:a:b` the parser stores
template `"a"`, not the whole remainder `"a:b"` after the first colon. -/
theorem C9_counterexample :
    (parseConfig "CONTAINER_NAMES=(\n    \"VAR:a:b\"\n)").containerNames = [("VAR", "a")]
    ∧ (parseConfig "CONTAINER_NAMES=(\n    \"VAR:a:b\"\n)").containerNames ≠
        [("VAR", "a:b")] :=
  ⟨rfl, by decide⟩

/-- C10: the two code paths treat a falsy (`NaN` sentinel or `0`) base port
differently — an explicit `env_vars` rule naming the variable skips it and
leaves the content unchanged, while the batch port-mapping upsert still
writes the line `VAR=<basePort+offset>` (e.g. `VAR=NaN`) into the primary
environment file. -/
theorem C10_theorem (m : List (String × JsNum)) (v : String) (b : JsNum)
    (off : Int) (c : FileContent)
    (hl : lookupA m v = some b) (hf : b.truthy = false) :
    (envVarsStep m off c v = c)
    ∧ ((m.map Prod.fst).Nodup → (∀ p ∈ m, '=' ∉ p.1.data) →
      ∃ l ∈ updatePortVariablesContent m off c,
        l = v ++ "=" ++ JsNum.toStr (b.add off)) := by
  constructor
  · simp only [envVarsStep, hl, hf, Bool.false_eq_true, if_false]
  · intro hnd hkf
    rw [updatePortVariablesContent_eq_runC]
    have hmem : ((v, JsNum.toStr (b.add off)) : String × String) ∈ portOps m off :=
      List.mem_map.mpr ⟨(v, b), lookupA_mem m v b hl, rfl⟩
    have hkeys : ∀ p ∈ portOps m off, '=' ∉ p.1.data := by
      intro p hp
      obtain ⟨q, hq, he⟩ := List.mem_map.mp hp
      cases he
      exact hkf q hq
    have hcompat : ∀ p ∈ portOps m off, ∀ q ∈ portOps m off, OpsCompat p q := by
      intro p hp q hq hk
      obtain ⟨p', hp', hep⟩ := List.mem_map.mp hp
      obtain ⟨q', hq', heq⟩ := List.mem_map.mp hq
      cases hep
      cases heq
      have h1 := lookupA_of_nodup_mem m p'.1 p'.2 hnd hp'
      have h2 := lookupA_of_nodup_mem m q'.1 q'.2 hnd hq'
      rw [hk] at h1
      rw [h1] at h2
      rw [Option.some.inj h2]
    obtain ⟨⟨l, hlm, hm⟩, hall⟩ :=
      settledC_after_runC (portOps m off) c hkeys hcompat _ hmem
    exact ⟨l, hlm, hall l hlm hm⟩

/-- Witness for C10 with the `NaN` sentinel at offset 7. -/
theorem C10_witness :
    envVarsStep [("CLIENT_PORT", JsNum.nan)] 7 ["X=1"] "CLIENT_PORT" = ["X=1"]
    ∧ ∃ l ∈ updatePortVariablesContent [("CLIENT_PORT", JsNum.nan)] 7 ["X=1"],
        l = "CLIENT_PORT" ++ "=" ++ JsNum.toStr (JsNum.nan.add 7) := by
  have h := C10_theorem [("CLIENT_PORT", JsNum.nan)] "CLIENT_PORT" JsNum.nan 7 ["X=1"]
    (by decide) (by decide)
  exact ⟨h.1, h.2 (by decide) (by decide)⟩
